import Mathlib

/-!
Verification of the small dense symmetric eigenvalue / singular value kernel
of `linalg/densemat.cpp` (MFEM).  The C++ routines are embedded shallowly
over the exact reals: every `double` becomes an `ℝ`, `sqrt`/`hypot`/`cos`/
`acos` become `Real.sqrt`/`Real.cos`/`Real.arccos`, and the in/out reference
parameters become explicit functional state.  `frexp`-based scale extraction
is modelled by the exact binary exponent (the value `mult` with
`d_max / mult ∈ [0.5, 1)`), which is what `GetScalingFactor` computes for
every positive finite `double`.
-/

namespace Densemat

/-- C `copysign(x, y)`: the magnitude of `x` with the sign of `y`; the sign of
the real number `0` is taken positive, matching C's `+0.0`. -/
noncomputable def copysign (x y : ℝ) : ℝ :=
  if y < 0 then -|x| else |x|

/-- C `hypot(x, y) = sqrt(x*x + y*y)` (exact over `ℝ`). -/
noncomputable def hypot (x y : ℝ) : ℝ :=
  Real.sqrt (x * x + y * y)

/-- The constant `sqrt(1/numeric_limits<double>::epsilon())` with
`epsilon = 2^-52`. -/
noncomputable def sqrt_1_eps : ℝ :=
  Real.sqrt (1 / (2 : ℝ) ^ (-52 : ℤ))

/-- `Eigenvalues2S(d12, d1, d2)`: eigenvalues of the symmetric 2x2 matrix
`[[d1,d12],[d12,d2]]` by the stable rotation formula; returns the updated
`(d1, d2)`. -/
noncomputable def Eigenvalues2S (d12 d1 d2 : ℝ) : ℝ × ℝ :=
  if d12 = 0 then (d1, d2)
  else
    let zeta := (d2 - d1) / (2 * d12)
    let t :=
      if |zeta| < sqrt_1_eps then
        d12 * copysign (1 / (|zeta| + Real.sqrt (1 + zeta * zeta))) zeta
      else
        d12 * copysign (0.5 / |zeta|) zeta
    (d1 - t, d2 + t)

/-- `Eigensystem2S(d12, d1, d2, c, s)`: eigenvalues plus the rotation
`(c, s)`; returns `(d1, d2, c, s)`. -/
noncomputable def Eigensystem2S (d12 d1 d2 : ℝ) : ℝ × ℝ × ℝ × ℝ :=
  if d12 = 0 then (d1, d2, 1, 0)
  else
    let zeta := (d2 - d1) / (2 * d12)
    let t :=
      if |zeta| < sqrt_1_eps then
        copysign (1 / (|zeta| + Real.sqrt (1 + zeta * zeta))) zeta
      else
        copysign (0.5 / |zeta|) zeta
    let c := Real.sqrt (1 / (1 + t * t))
    let s := c * t
    (d1 - t * d12, d2 + t * d12, c, s)

/-- The property claim C2 states about `Eigensystem2S` at an input, written
from the spec's words: one single `t` carrying the factor `d12` is used both
for the eigenvalue shift `t*d12` and for the rotation `c = sqrt(1/(1+t^2))`,
`s = c*t`. -/
noncomputable def Eigensystem2S_claimedForm (d1 d12 d2 : ℝ) : Prop :=
  let zeta := (d2 - d1) / (2 * d12)
  let t := d12 * copysign (1 / (|zeta| + Real.sqrt (1 + zeta * zeta))) zeta
  Eigensystem2S d12 d1 d2 =
    (d1 - t * d12, d2 + t * d12, Real.sqrt (1 / (1 + t * t)),
      Real.sqrt (1 / (1 + t * t)) * t)

/-- `vec_normalize3_aux(x1, x2, x3, n1, n2, n3)` for the pivot component
`x1`: returns the normalized `(n1, n2, n3)` in pivot-first order. -/
noncomputable def vec_normalize3_aux (x1 x2 x3 : ℝ) : ℝ × ℝ × ℝ :=
  let m := |x1|
  let r2 := x2 / m
  let r3 := x3 / m
  let t := Real.sqrt (1 / (1 + r2 * r2 + r3 * r3))
  (copysign t x1, x2 * (t / m), x3 * (t / m))

/-- `vec_normalize3`: Euclidean normalization scaled by the max-magnitude
component to avoid overflow; the zero vector maps to zero. -/
noncomputable def vec_normalize3 (x1 x2 x3 : ℝ) : ℝ × ℝ × ℝ :=
  if |x1| ≥ |x2| ∧ |x1| ≥ |x3| then
    if x1 = 0 then (0, 0, 0) else vec_normalize3_aux x1 x2 x3
  else if |x1| < |x2| ∧ |x2| ≥ |x3| then
    let n := vec_normalize3_aux x2 x1 x3
    (n.2.1, n.1, n.2.2)
  else
    let n := vec_normalize3_aux x3 x1 x2
    (n.2.1, n.2.2, n.1)

/-- Result of `KernelVector2G`: the `zero` flag (matrix numerically zero) and
the four in/out slots; the near-kernel vector sits in `(d1, d2)`. -/
structure KV2 where
  zero : Bool
  d1 : ℝ
  d12 : ℝ
  d21 : ℝ
  d2 : ℝ

/-- The tail of `KernelVector2G` after column/row pivoting: Householder
elimination of `d21`, then the piecewise-linear minimization picking the
near-kernel vector, then the column un-swap. -/
noncomputable def KernelVector2G_solve (swapped : Bool) (d1 d12 d21 d2 : ℝ) : KV2 :=
  let n1 := hypot d1 d21
  let e :=
    if d21 = 0 then (d1, d12, d2)
    else
      let mu := copysign n1 d1
      let m1 := -d21 * (d21 / (d1 + mu))
      if |m1| ≤ |d21| then
        let t := m1 / d21
        let mu2 := (2 / (1 + t * t)) * (t * d12 + d2)
        (mu, d12 - mu2 * t, d2 - mu2)
      else
        let t := d21 / m1
        let mu2 := (2 / (1 + t * t)) * (d12 + t * d2)
        (mu, d12 - mu2, d2 - mu2 * t)
  let mu3 := -e.2.1 / e.1
  let n2 := 1 / (1 + |mu3|)
  let zz : ℝ × ℝ :=
    if |e.1| ≤ n2 * |e.2.2| then (1, 0) else (mu3 * n2, n2)
  let r := if swapped then (zz.2, zz.1) else zz
  ⟨false, r.1, e.2.1, d21, r.2⟩

/-- `KernelVector2G(mode, d1, d12, d21, d2)`: a near-kernel vector of the 2x2
matrix `[[d1,d12],[d21,d2]]` with `|z1| + |z2| = 1`; `zero = true` when the
matrix is numerically zero. -/
noncomputable def KernelVector2G (mode : ℕ) (d1 d12 d21 d2 : ℝ) : KV2 :=
  let n1 := |d1| + |d21|
  let n2 := |d2| + |d12|
  if n2 > n1 then
    if mode = 0 then
      if |d12| > |d2| then KernelVector2G_solve true d2 d21 d12 d1
      else KernelVector2G_solve true d12 d1 d2 d21
    else
      if |d12| < |d2| then KernelVector2G_solve true d2 d21 d12 d1
      else KernelVector2G_solve true d12 d1 d2 d21
  else if n1 = 0 then ⟨true, d1, d12, d21, d2⟩
  else
    if mode = 0 then
      if |d1| > |d21| then KernelVector2G_solve false d21 d2 d1 d12
      else KernelVector2G_solve false d1 d12 d21 d2
    else
      if |d1| < |d21| then KernelVector2G_solve false d21 d2 d1 d12
      else KernelVector2G_solve false d1 d12 d21 d2

/-- Result of the 3x3 kernel-vector routines: the kernel dimension tag and
the returned vector `(z1, z2, z3)`. -/
structure KV3 where
  kdim : ℕ
  z1 : ℝ
  z2 : ℝ
  z3 : ℝ

/-- Tail of `KernelVector3G_aux` after the first-column elimination: solve the
residual 2x2 block, reconstruct the third component, and normalize. -/
noncomputable def KernelVector3G_fin (mode : ℕ) (d1 d2 d3 c12 c13 c23 c32 : ℝ) : KV3 :=
  let kv := KernelVector2G mode d2 c23 c32 d3
  if kv.zero then
    let z2 := c12 / d1
    let z3 := c13 / d1
    let n := vec_normalize3 1 z2 z3
    ⟨2, n.1, n.2.1, n.2.2⟩
  else
    let z2 := kv.d1
    let z3 := kv.d2
    let z1 := -(c12 * z2 + c13 * z3) / d1
    let n := vec_normalize3 z1 z2 z3
    ⟨1, n.1, n.2.1, n.2.2⟩

/-- `KernelVector3G_aux`: Householder elimination of the first column of the
(already pivoted) 3x3 matrix, then the residual solve. -/
noncomputable def KernelVector3G_aux (mode : ℕ)
    (d1 d2 d3 c12 c13 c23 c21 c31 c32 : ℝ) : KV3 :=
  let s1 := hypot c21 c31
  let n1 := hypot d1 s1
  if s1 = 0 then
    KernelVector3G_fin mode d1 d2 d3 c12 c13 c23 c32
  else
    let mu := copysign n1 d1
    let m1 := -s1 * (s1 / (d1 + mu))
    if |m1| ≥ |c21| ∧ |m1| ≥ |c31| then
      let s2 := c21 / m1
      let s3 := c31 / m1
      let mu2 := 2 / (1 + s2 * s2 + s3 * s3)
      let n2 := mu2 * (c12 + s2 * d2 + s3 * c32)
      let n3 := mu2 * (c13 + s2 * c23 + s3 * d3)
      KernelVector3G_fin mode mu (d2 - s2 * n2) (d3 - s3 * n3)
        (c12 - n2) (c13 - n3) (c23 - s2 * n3) (c32 - s3 * n2)
    else if |m1| < |c21| ∧ |c21| ≥ |c31| then
      let s1b := m1 / c21
      let s3 := c31 / c21
      let mu2 := 2 / (1 + s1b * s1b + s3 * s3)
      let n2 := mu2 * (s1b * c12 + d2 + s3 * c32)
      let n3 := mu2 * (s1b * c13 + c23 + s3 * d3)
      KernelVector3G_fin mode mu (d2 - n2) (d3 - s3 * n3)
        (c12 - s1b * n2) (c13 - s1b * n3) (c23 - n3) (c32 - s3 * n2)
    else
      let s1b := m1 / c31
      let s2 := c21 / c31
      let mu2 := 2 / (1 + s1b * s1b + s2 * s2)
      let n2 := mu2 * (s1b * c12 + s2 * d2 + c32)
      let n3 := mu2 * (s1b * c13 + s2 * c23 + d3)
      KernelVector3G_fin mode mu (d2 - s2 * n2) (d3 - n3)
        (c12 - s1b * n2) (c13 - s1b * n3) (c23 - s2 * n3) (c32 - n2)

/-- Row pivoting of `KernelVector3S` (the `switch (row)` block) followed by
the generic 3x3 elimination. -/
noncomputable def KernelVector3S_row (mode : ℕ) (d1 d2 d3 c12 c13 c23 : ℝ) : KV3 :=
  if mode = 0 then
    if |d1| ≤ |c13| then
      if |d1| ≤ |c12| then
        KernelVector3G_aux mode d1 d2 d3 c12 c13 c23 c12 c13 c23
      else
        KernelVector3G_aux mode c12 c12 d3 d2 c23 c13 d1 c13 c23
    else
      if |c12| ≤ |c13| then
        KernelVector3G_aux mode c12 c12 d3 d2 c23 c13 d1 c13 c23
      else
        KernelVector3G_aux mode c13 d2 c13 c23 d3 c23 c12 d1 c12
  else
    if |d1| ≥ |c13| then
      if |d1| ≥ |c12| then
        KernelVector3G_aux mode d1 d2 d3 c12 c13 c23 c12 c13 c23
      else
        KernelVector3G_aux mode c12 c12 d3 d2 c23 c13 d1 c13 c23
    else
      if |c12| ≥ |c13| then
        KernelVector3G_aux mode c12 c12 d3 d2 c23 c13 d1 c13 c23
      else
        KernelVector3G_aux mode c13 d2 c13 c23 d3 c23 c12 d1 c12

/-- `KernelVector3S(mode, d12, d13, d23, d1, d2, d3)`: a unit vector in the
near-kernel of the symmetric 3x3 matrix, with column pivoting by l1-norm.
Returns the kernel dimension (1, 2 or 3); `3` means the zero matrix. -/
noncomputable def KernelVector3S (mode : ℕ) (d12 d13 d23 d1 d2 d3 : ℝ) : KV3 :=
  let n1 := |d1| + |d12| + |d13|
  let n2 := |d2| + |d12| + |d23|
  let n3 := |d3| + |d13| + |d23|
  if n1 ≥ n3 then
    if n1 ≥ n2 then
      if n1 = 0 then ⟨3, d1, d2, d3⟩
      else KernelVector3S_row mode d1 d2 d3 d12 d13 d23
    else
      if n2 = 0 then ⟨3, d1, d2, d3⟩
      else
        let r := KernelVector3S_row mode d2 d1 d3 d12 d23 d13
        ⟨r.kdim, r.z2, r.z1, r.z3⟩
  else
    if n2 ≥ n3 then
      if n2 = 0 then ⟨3, d1, d2, d3⟩
      else
        let r := KernelVector3S_row mode d2 d1 d3 d12 d23 d13
        ⟨r.kdim, r.z2, r.z1, r.z3⟩
    else
      if n3 = 0 then ⟨3, d1, d2, d3⟩
      else
        let r := KernelVector3S_row mode d3 d2 d1 d23 d13 d12
        ⟨r.kdim, r.z3, r.z2, r.z1⟩

/-- Result of `Reduce3S_body`: the transformed entries `(b1, b2, b3, b23)`
and the Householder data `(v1, v2, v3, g)`. -/
structure R3SB where
  d1 : ℝ
  d2 : ℝ
  d3 : ℝ
  d23 : ℝ
  v1 : ℝ
  v2 : ℝ
  v3 : ℝ
  g : ℝ

/-- The Householder data `(v1, v2, v3, g)` that `Reduce3S` builds from the
permuted eigenvector `z`: `v = 0, g = 1` when the non-pivot components
vanish, else `v` proportional to `z - sign(z1) e1` normalized by its largest
component, with `g = 2/|v|^2`. -/
noncomputable def houseV (z1 z2 z3 : ℝ) : ℝ × ℝ × ℝ × ℝ :=
  let s := hypot z2 z3
  if s = 0 then (0, 0, 0, 1)
  else
    let sg := copysign 1 z1
    let w := -s * (s / (z1 + sg))
    let m := max (max |w| |z2|) |z3|
    let v1 := w / m
    let v2 := z2 / m
    let v3 := z3 / m
    (v1, v2, v3, 2 / (v1 * v1 + v2 * v2 + v3 * v3))

/-- Body of `Reduce3S` after the entry permutation: build the Householder
vector from the (permuted) eigenvector `z` and conjugate the matrix. -/
noncomputable def Reduce3S_body (d1 d2 d3 d12 d13 d23 z1 z2 z3 : ℝ) : R3SB :=
  let h := houseV z1 z2 z3
  let v1 := h.1
  let v2 := h.2.1
  let v3 := h.2.2.1
  let g := h.2.2.2
  if hypot z2 z3 = 0 then ⟨d1, d2, d3, d23, v1, v2, v3, g⟩
  else
    let w1 := g * (d1 * v1 + d12 * v2 + d13 * v3)
    let w2 := g * (d12 * v1 + d2 * v2 + d23 * v3)
    let w3 := g * (d13 * v1 + d23 * v2 + d3 * v3)
    let s2 := (g / 2) * (v1 * w1 + v2 * w2 + v3 * w3)
    let u1 := w1 - s2 * v1
    let u2 := w2 - s2 * v2
    let u3 := w3 - s2 * v3
    ⟨d1 - 2 * v1 * u1, d2 - 2 * v2 * u2, d3 - 2 * v3 * u3,
      d23 - (v2 * u3 + v3 * u2), v1, v2, v3, g⟩

/-- Result of `Reduce3S`: the permutation index `k`, the transformed matrix
slots, the (restored) eigenvector and the Householder data. -/
structure R3S where
  k : ℕ
  d1 : ℝ
  d2 : ℝ
  d3 : ℝ
  d12 : ℝ
  d13 : ℝ
  d23 : ℝ
  z1 : ℝ
  z2 : ℝ
  z3 : ℝ
  v1 : ℝ
  v2 : ℝ
  v3 : ℝ
  g : ℝ

/-- Pivot selection of `Reduce3S(mode, ...)`: the index `k` of the component
of `z` of smallest (mode 0) or largest (mode 1) magnitude, by the comparison
chain the code uses. -/
noncomputable def Reduce3S_k (mode : ℕ) (z1 z2 z3 : ℝ) : ℕ :=
  if mode = 0 then
    if |z1| ≤ |z3| then (if |z1| ≤ |z2| then 1 else 2)
    else (if |z2| ≤ |z3| then 2 else 3)
  else
    if |z1| ≥ |z3| then (if |z1| ≥ |z2| then 1 else 2)
    else (if |z2| ≥ |z3| then 2 else 3)

/-- `Reduce3S(mode, d1, d2, d3, d12, d13, d23, z1, z2, z3, v1, v2, v3, g)`:
deflation of the symmetric 3x3 eigenproblem by a permutation plus a
Householder reflection built from the unit eigenvector `z`. -/
noncomputable def Reduce3S (mode : ℕ) (d1 d2 d3 d12 d13 d23 z1 z2 z3 : ℝ) : R3S :=
  let k := Reduce3S_k mode z1 z2 z3
  if k = 2 then
    let b := Reduce3S_body d2 d1 d3 d12 d23 d13 z2 z1 z3
    ⟨2, b.d1, b.d2, b.d3, d12, d23, b.d23, z1, z2, z3, b.v1, b.v2, b.v3, b.g⟩
  else if k = 3 then
    let b := Reduce3S_body d3 d2 d1 d23 d13 d12 z3 z2 z1
    ⟨3, b.d1, b.d2, b.d3, d23, d13, b.d23, z1, z2, z3, b.v1, b.v2, b.v3, b.g⟩
  else
    let b := Reduce3S_body d1 d2 d3 d12 d13 d23 z1 z2 z3
    ⟨1, b.d1, b.d2, b.d3, d12, d13, b.d23, z1, z2, z3, b.v1, b.v2, b.v3, b.g⟩

/-- The permutation matrix `P` swapping coordinate 1 and `k` (1-based), as in
the contract of `Reduce3S`. -/
def pmat (k : ℕ) : Matrix (Fin 3) (Fin 3) ℝ :=
  if k = 2 then !![0, 1, 0; 1, 0, 0; 0, 0, 1]
  else if k = 3 then !![0, 0, 1; 0, 1, 0; 1, 0, 0]
  else 1

/-- The reflection `Q = I - g v vᵀ` built from the data `Reduce3S` returns. -/
noncomputable def qmat (g v1 v2 v3 : ℝ) : Matrix (Fin 3) (Fin 3) ℝ :=
  1 - g • Matrix.vecMulVec ![v1, v2, v3] ![v1, v2, v3]

/-- The symmetric 3x3 matrix with diagonal `d1, d2, d3` and off-diagonal
entries `d12, d13, d23`. -/
def symMat3 (d1 d2 d3 d12 d13 d23 : ℝ) : Matrix (Fin 3) (Fin 3) ℝ :=
  !![d1, d12, d13; d12, d2, d23; d13, d23, d3]

/-- The Householder reflection `qmat` assembled from the `houseV` data. -/
noncomputable def houseQ (z1 z2 z3 : ℝ) : Matrix (Fin 3) (Fin 3) ℝ :=
  qmat (houseV z1 z2 z3).2.2.2 (houseV z1 z2 z3).1 (houseV z1 z2 z3).2.1
    (houseV z1 z2 z3).2.2.1

/-- `GetScalingFactor(d_max, mult)`: the power of two with
`d_max / mult ∈ [0.5, 1)` (the exact content of the `frexp` decomposition for
positive arguments); `1` when `d_max` is not positive. -/
noncomputable def GetScalingFactor (d : ℝ) : ℝ :=
  if 0 < d then (2 : ℝ) ^ (⌊Real.logb 2 d⌋ + 1) else 1

/-- Maximum absolute value of four entries, as the comparison chain in
`CalcSingularvalue` computes it. -/
def dmax4 (a b c d : ℝ) : ℝ :=
  max (max (max |a| |b|) |c|) |d|

/-- Maximum absolute value of the six entries read by the 3x3 branch of
`CalcEigenvalues` (in its comparison order `d11,d22,d33,d12,d13,d23`). -/
def dmax6 (d11 d22 d33 d12 d13 d23 : ℝ) : ℝ :=
  max (max (max (max (max |d11| |d22|) |d33|) |d12|) |d13|) |d23|

/-- Maximum absolute value of nine entries (3x3 singular value branch). -/
def dmax9 (a b c d e f g h i : ℝ) : ℝ :=
  max (max (max (max (max (max (max (max |a| |b|) |c|) |d|) |e|) |f|) |g|) |h|) |i|

/-- Eigen-decomposition result for the 2x2 branch: ascending eigenvalues and
the eigenvector matrix in column-major order `v0,v1 | v2,v3`. -/
structure Eig2 where
  l0 : ℝ
  l1 : ℝ
  v0 : ℝ
  v1 : ℝ
  v2 : ℝ
  v3 : ℝ

/-- Eigen-decomposition result for the 3x3 branch: ascending eigenvalues and
the eigenvector matrix in column-major order `w0..w2 | w3..w5 | w6..w8`. -/
structure Eig3 where
  l0 : ℝ
  l1 : ℝ
  l2 : ℝ
  w0 : ℝ
  w1 : ℝ
  w2 : ℝ
  w3 : ℝ
  w4 : ℝ
  w5 : ℝ
  w6 : ℝ
  w7 : ℝ
  w8 : ℝ

/-- The invariant `Q = (2*(d12^2+d13^2+d23^2) + c1^2+c2^2+c3^2)/6` of the
scaled 3x3 matrix (`c_i` the deviatoric diagonal). -/
noncomputable def Qinv (d11 d22 d33 d12 d13 d23 : ℝ) : ℝ :=
  let aa := (d11 + d22 + d33) / 3
  let c1 := d11 - aa
  let c2 := d22 - aa
  let c3 := d33 - aa
  (2 * (d12 * d12 + d13 * d13 + d23 * d23) + c1 * c1 + c2 * c2 + c3 * c3) / 6

/-- The invariant `R = -det(deviatoric part)/2` of the scaled 3x3 matrix. -/
noncomputable def Rinv (d11 d22 d33 d12 d13 d23 : ℝ) : ℝ :=
  let aa := (d11 + d22 + d33) / 3
  let c1 := d11 - aa
  let c2 := d22 - aa
  let c3 := d33 - aa
  (c1 * (d23 * d23 - c2 * c3) + d12 * (d12 * c3 - 2 * d13 * d23) +
    d13 * d13 * c2) / 2

/-- Assembly step of the 3x3 eigen-decomposition: compose the deflated 2x2
rotation back through the Householder reflection and the permutation, then
place the three `(eigenvalue, column)` pairs in ascending order. -/
noncomputable def eig3assemble (k : ℕ) (b11 b22 b33 c s z1 z2 z3 v1 v2 v3 g : ℝ) : Eig3 :=
  let t2 := g * (v2 * c - v3 * s)
  let t3 := g * (v2 * s + v3 * c)
  let a1 := -v1 * t2
  let a2 := c - v2 * t2
  let a3 := -s - v3 * t2
  let b1 := -v1 * t3
  let b2 := s - v2 * t3
  let b3 := c - v3 * t3
  let p : (ℝ × ℝ × ℝ) × (ℝ × ℝ × ℝ) :=
    if k = 2 then ((a2, a1, a3), (b2, b1, b3))
    else if k = 3 then ((a3, a2, a1), (b3, b2, b1))
    else ((a1, a2, a3), (b1, b2, b3))
  let cA : ℝ × ℝ × ℝ := (z1, z2, z3)
  let c2 := p.1
  let c3 := p.2
  if b11 ≤ b22 then
    if b22 ≤ b33 then
      ⟨b11, b22, b33, cA.1, cA.2.1, cA.2.2, c2.1, c2.2.1, c2.2.2, c3.1, c3.2.1, c3.2.2⟩
    else if b11 ≤ b33 then
      ⟨b11, b33, b22, cA.1, cA.2.1, cA.2.2, c3.1, c3.2.1, c3.2.2, c2.1, c2.2.1, c2.2.2⟩
    else
      ⟨b33, b11, b22, c3.1, c3.2.1, c3.2.2, cA.1, cA.2.1, cA.2.2, c2.1, c2.2.1, c2.2.2⟩
  else
    if b11 ≤ b33 then
      ⟨b22, b11, b33, c2.1, c2.2.1, c2.2.2, cA.1, cA.2.1, cA.2.2, c3.1, c3.2.1, c3.2.2⟩
    else if b22 ≤ b33 then
      ⟨b22, b33, b11, c2.1, c2.2.1, c2.2.2, c3.1, c3.2.1, c3.2.2, cA.1, cA.2.1, cA.2.2⟩
    else
      ⟨b33, b22, b11, c3.1, c3.2.1, c3.2.2, c2.1, c2.2.1, c2.2.2, cA.1, cA.2.1, cA.2.2⟩

/-- Core of the 3x3 branch of `CalcEigenvalues`, on the already scaled
entries; the eigenvalues it returns are multiplied by `mult` afterwards. -/
noncomputable def eig3core (d11 d22 d33 d12 d13 d23 : ℝ) : Eig3 :=
  let aa := (d11 + d22 + d33) / 3
  if Qinv d11 d22 d33 d12 d13 d23 ≤ 0 then
    ⟨aa, aa, aa, 1, 0, 0, 0, 1, 0, 0, 0, 1⟩
  else
    let Q := Qinv d11 d22 d33 d12 d13 d23
    let R := Rinv d11 d22 d33 d12 d13 d23
    let sqrtQ := Real.sqrt Q
    let sqrtQ3 := Q * sqrtQ
    let r :=
      if |R| ≥ sqrtQ3 then (if R < 0 then 2 * sqrtQ else -2 * sqrtQ)
      else
        let Rn := R / sqrtQ3
        if Rn < 0 then -2 * sqrtQ * Real.cos ((Real.arccos Rn + 2 * Real.pi) / 3)
        else -2 * sqrtQ * Real.cos (Real.arccos Rn / 3)
    let ab := aa + r
    let c1 := d11 - ab
    let c2 := d22 - ab
    let c3 := d33 - ab
    let kv := KernelVector3S 0 d12 d13 d23 c1 c2 c3
    if kv.kdim = 3 then ⟨ab, ab, ab, 1, 0, 0, 0, 1, 0, 0, 0, 1⟩
    else
      let o := Reduce3S 0 d11 d22 d33 d12 d13 d23 kv.z1 kv.z2 kv.z3
      let es := Eigensystem2S o.d23 o.d2 o.d3
      eig3assemble o.k o.d1 es.1 es.2.1 es.2.2.1 es.2.2.2 kv.z1 kv.z2 kv.z3 o.v1 o.v2 o.v3 o.g

/-- The 2x2 branch of `CalcEigenvalues` on the entries `d[0], d[2], d[3]`. -/
noncomputable def CalcEigenvalues2 (d0 d2 d3 : ℝ) : Eig2 :=
  let es := Eigensystem2S d2 d0 d3
  if es.1 ≤ es.2.1 then
    ⟨es.1, es.2.1, es.2.2.1, -es.2.2.2, es.2.2.2, es.2.2.1⟩
  else
    ⟨es.2.1, es.1, es.2.2.2, es.2.2.1, es.2.2.1, -es.2.2.2⟩

/-- The 3x3 branch of `CalcEigenvalues` on the entries
`d[0], d[3], d[4], d[6], d[7], d[8]` (named `d11, d12, d22, d13, d23, d33`):
scale normalization, then `eig3core`, then the eigenvalues rescaled. -/
noncomputable def CalcEigenvalues3 (d11 d12 d22 d13 d23 d33 : ℝ) : Eig3 :=
  let mult := GetScalingFactor (dmax6 d11 d22 d33 d12 d13 d23)
  let c := eig3core (d11 / mult) (d22 / mult) (d33 / mult)
    (d12 / mult) (d13 / mult) (d23 / mult)
  ⟨c.l0 * mult, c.l1 * mult, c.l2 * mult,
    c.w0, c.w1, c.w2, c.w3, c.w4, c.w5, c.w6, c.w7, c.w8⟩

/-- `DenseMatrix::CalcEigenvalues(lambda, vec)` with the `MFEM_DEBUG`
dimension guard: `none` models the fatal `mfem_error` abort, otherwise the
2x2 or 3x3 branch runs on the column-major data array `d`. -/
noncomputable def CalcEigenvalues (height width : ℕ) (d : ℕ → ℝ) :
    Option (Eig2 ⊕ Eig3) :=
  if height ≠ width ∨ height < 2 ∨ 3 < height then none
  else if height = 2 then some (Sum.inl (CalcEigenvalues2 (d 0) (d 2) (d 3)))
  else some (Sum.inr (CalcEigenvalues3 (d 0) (d 3) (d 4) (d 6) (d 7) (d 8)))

/-- The larger singular value `s` of the scaled 2x2 matrix
`[[e0,e2],[e1,e3]]`, as the 2x2 branch of `CalcSingularvalue` computes it. -/
noncomputable def sv2s (e0 e1 e2 e3 : ℝ) : ℝ :=
  let t := 0.5 * ((e0 + e2) * (e0 - e2) + (e1 - e3) * (e1 + e3))
  let u := e0 * e2 + e1 * e3
  Real.sqrt (0.5 * (e0 * e0 + e1 * e1 + e2 * e2 + e3 * e3) + Real.sqrt (t * t + u * u))

/-- The 2x2 branch of `CalcSingularvalue`: scale, compute the larger singular
value `s`, guard the zero matrix, and derive the smaller one from the
determinant. -/
noncomputable def CalcSingularvalue2 (d0 d1 d2 d3 : ℝ) (i : ℕ) : ℝ :=
  let mult := GetScalingFactor (dmax4 d0 d1 d2 d3)
  let e0 := d0 / mult
  let e1 := d1 / mult
  let e2 := d2 / mult
  let e3 := d3 / mult
  let s := sv2s e0 e1 e2 e3
  if s = 0 then 0
  else
    let t := |e0 * e3 - e1 * e2| / s
    if t > s then (if i = 0 then t * mult else s * mult)
    else (if i = 0 then s * mult else t * mult)

/-- Reduction path of the 3x3 branch of `CalcSingularvalue`: kernel vector of
`B - (aa+r)I`, Householder deflation, 2x2 eigenvalues, then the min / mid /
max selection for the requested index. -/
noncomputable def sv3reduce (r aa b11 b22 b33 b12 b13 b23 c1 c2 c3 : ℝ) (i : ℕ) : ℝ :=
  let kv := KernelVector3S 1 b12 b13 b23 (c1 - r) (c2 - r) (c3 - r)
  if kv.kdim = 3 then aa + r
  else
    let o := Reduce3S 1 b11 b22 b33 b12 b13 b23 kv.z1 kv.z2 kv.z3
    let ev := Eigenvalues2S o.d23 o.d2 o.d3
    if i = 2 then min (min o.d1 ev.1) ev.2
    else if i = 1 then
      (if o.d1 ≤ ev.1 then (if ev.1 ≤ ev.2 then ev.1 else max o.d1 ev.2)
       else (if o.d1 ≤ ev.2 then o.d1 else max ev.2 ev.1))
    else max (max o.d1 ev.1) ev.2

/-- The 3x3 branch of `CalcSingularvalue`: singular values of the scaled
matrix through the eigenvalues of its Gram matrix `B`, returned as
`sqrt(|aa|) * mult`. -/
noncomputable def CalcSingularvalue3 (d0 d1 d2 d3 d4 d5 d6 d7 d8 : ℝ) (i : ℕ) : ℝ :=
  let mult := GetScalingFactor (dmax9 d0 d1 d2 d3 d4 d5 d6 d7 d8)
  let e0 := d0 / mult
  let e1 := d1 / mult
  let e2 := d2 / mult
  let e3 := d3 / mult
  let e4 := d4 / mult
  let e5 := d5 / mult
  let e6 := d6 / mult
  let e7 := d7 / mult
  let e8 := d8 / mult
  let b11 := e0 * e0 + e1 * e1 + e2 * e2
  let b12 := e0 * e3 + e1 * e4 + e2 * e5
  let b13 := e0 * e6 + e1 * e7 + e2 * e8
  let b22 := e3 * e3 + e4 * e4 + e5 * e5
  let b23 := e3 * e6 + e4 * e7 + e5 * e8
  let b33 := e6 * e6 + e7 * e7 + e8 * e8
  let aa := (b11 + b22 + b33) / 3
  let b11_b22 := (e0 - e3) * (e0 + e3) + (e1 - e4) * (e1 + e4) + (e2 - e5) * (e2 + e5)
  let b22_b33 := (e3 - e6) * (e3 + e6) + (e4 - e7) * (e4 + e7) + (e5 - e8) * (e5 + e8)
  let b33_b11 := (e6 - e0) * (e6 + e0) + (e7 - e1) * (e7 + e1) + (e8 - e2) * (e8 + e2)
  let c1 := (b11_b22 - b33_b11) / 3
  let c2 := (b22_b33 - b11_b22) / 3
  let c3 := (b33_b11 - b22_b33) / 3
  let Q := (2 * (b12 * b12 + b13 * b13 + b23 * b23) + c1 * c1 + c2 * c2 + c3 * c3) / 6
  let R := (c1 * (b23 * b23 - c2 * c3) + b12 * (b12 * c3 - 2 * b13 * b23) +
    b13 * b13 * c2) / 2
  let av :=
    if Q ≤ 0 then aa
    else
      let sqrtQ := Real.sqrt Q
      let sqrtQ3 := Q * sqrtQ
      if |R| ≥ sqrtQ3 then
        sv3reduce (if R < 0 then 2 * sqrtQ else -2 * sqrtQ)
          aa b11 b22 b33 b12 b13 b23 c1 c2 c3 i
      else
        let Rn := R / sqrtQ3
        if |Rn| ≤ 0.9 then
          (if i = 2 then aa - 2 * sqrtQ * Real.cos (Real.arccos Rn / 3)
           else if i = 0 then aa - 2 * sqrtQ * Real.cos ((Real.arccos Rn + 2 * Real.pi) / 3)
           else aa - 2 * sqrtQ * Real.cos ((Real.arccos Rn - 2 * Real.pi) / 3))
        else if Rn < 0 then
          let r := -2 * sqrtQ * Real.cos ((Real.arccos Rn + 2 * Real.pi) / 3)
          if i = 0 then aa + r else sv3reduce r aa b11 b22 b33 b12 b13 b23 c1 c2 c3 i
        else
          let r := -2 * sqrtQ * Real.cos (Real.arccos Rn / 3)
          if i = 2 then aa + r else sv3reduce r aa b11 b22 b33 b12 b13 b23 c1 c2 c3 i
  Real.sqrt |av| * mult

/-- `DenseMatrix::CalcSingularvalue(i)` with the `MFEM_DEBUG` dimension
guard: `none` models the fatal `mfem_error` abort; otherwise the 1x1, 2x2 or
3x3 branch runs on the column-major data array `d`. -/
noncomputable def CalcSingularvalue (height width : ℕ) (d : ℕ → ℝ) (i : ℕ) :
    Option ℝ :=
  if height ≠ width ∨ height < 1 ∨ 3 < height then none
  else if height = 1 then some (d 0)
  else if height = 2 then some (CalcSingularvalue2 (d 0) (d 1) (d 2) (d 3) i)
  else some (CalcSingularvalue3 (d 0) (d 1) (d 2) (d 3) (d 4) (d 5) (d 6) (d 7) (d 8) i)

/-! ### General facts about the scaling factor -/

theorem GetScalingFactor_pos (d : ℝ) : 0 < GetScalingFactor d := by
  unfold GetScalingFactor
  split
  · exact zpow_pos (by norm_num) _
  · norm_num

/-! ### C8: the dimension guard -/

/-- C8: a call whose height differs from its width, or whose order lies
outside {1,2,3} for `CalcSingularvalue` (outside {2,3} for
`CalcEigenvalues`), hits the fatal `mfem_error` guard — modelled by `none` —
and never returns a value; every valid order returns a value. -/
theorem calc_dimension_guard (height width : ℕ) (d : ℕ → ℝ) (i : ℕ) :
    (CalcSingularvalue height width d i = none ↔
      (height ≠ width ∨ height < 1 ∨ 3 < height)) ∧
    (CalcEigenvalues height width d = none ↔
      (height ≠ width ∨ height < 2 ∨ 3 < height)) := by
  constructor
  · unfold CalcSingularvalue
    split
    · exact iff_of_true rfl ‹_›
    · split
      · exact iff_of_false (by simp) ‹_›
      · split
        · exact iff_of_false (by simp) ‹_›
        · exact iff_of_false (by simp) ‹_›
  · unfold CalcEigenvalues
    split
    · exact iff_of_true rfl ‹_›
    · split
      · exact iff_of_false (by simp) ‹_›
      · exact iff_of_false (by simp) ‹_›

/-! ### C9: only the diagonal and strictly upper triangular entries are read -/

/-- C9: `CalcEigenvalues` reads only `d[0], d[2], d[3]` at order 2 and only
`d[0], d[3], d[4], d[6], d[7], d[8]` at order 3; two stored matrices that
agree there produce identical eigenvalues and eigenvectors, whatever their
strictly lower triangular entries hold. -/
theorem calcEigenvalues_reads_upper :
    (∀ d e : ℕ → ℝ, d 0 = e 0 → d 2 = e 2 → d 3 = e 3 →
      CalcEigenvalues 2 2 d = CalcEigenvalues 2 2 e) ∧
    (∀ d e : ℕ → ℝ, d 0 = e 0 → d 3 = e 3 → d 4 = e 4 → d 6 = e 6 →
      d 7 = e 7 → d 8 = e 8 →
      CalcEigenvalues 3 3 d = CalcEigenvalues 3 3 e) := by
  constructor
  · intro d e h0 h2 h3
    unfold CalcEigenvalues
    norm_num
    rw [h0, h2, h3]
  · intro d e h0 h3 h4 h6 h7 h8
    unfold CalcEigenvalues
    norm_num
    rw [h0, h3, h4, h6, h7, h8]

/-! ### C1: the 1x1 singular value -/

/-- C1 counterexample: for the 1x1 matrix whose entry is `-1`,
`CalcSingularvalue(0)` returns the raw entry `-1` — a negative value — and
not the Euclidean norm `sqrt((-1)^2) = 1` of the column. -/
theorem calcSingularvalue1_claim_false :
    CalcSingularvalue 1 1 (fun _ => (-1 : ℝ)) 0 = some (-1) ∧
    (-1 : ℝ) ≠ Real.sqrt ((-1 : ℝ) * (-1 : ℝ)) := by
  constructor
  · unfold CalcSingularvalue
    norm_num
  · rw [show ((-1 : ℝ) * (-1)) = 1 by norm_num, Real.sqrt_one]
    norm_num

/-- C1 amended: the 1x1 branch returns the sole entry `d[0]` itself, with no
absolute value and no scale normalization; this equals the Euclidean norm of
the single column exactly when the entry is non-negative. -/
theorem calcSingularvalue1_nonneg (d : ℕ → ℝ) (h : 0 ≤ d 0) :
    CalcSingularvalue 1 1 d 0 = some (Real.sqrt (d 0 * d 0)) := by
  unfold CalcSingularvalue
  norm_num
  rw [Real.sqrt_mul_self h]

theorem calcSingularvalue1_nonneg_witness :
    CalcSingularvalue 1 1 (fun _ => (2 : ℝ)) 0 =
      some (Real.sqrt ((2 : ℝ) * 2)) :=
  calcSingularvalue1_nonneg (fun _ => (2 : ℝ)) (by norm_num)

/-! ### C10: the zero guard in the 2x2 singular value branch -/

theorem sv2s_eq_zero_iff (e0 e1 e2 e3 : ℝ) :
    sv2s e0 e1 e2 e3 = 0 ↔ (e0 = 0 ∧ e1 = 0 ∧ e2 = 0 ∧ e3 = 0) := by
  unfold sv2s
  constructor
  · intro h
    rw [Real.sqrt_eq_zero'] at h
    have hs := Real.sqrt_nonneg
      ((0.5 * ((e0 + e2) * (e0 - e2) + (e1 - e3) * (e1 + e3))) *
        (0.5 * ((e0 + e2) * (e0 - e2) + (e1 - e3) * (e1 + e3))) +
        (e0 * e2 + e1 * e3) * (e0 * e2 + e1 * e3))
    have h0 := mul_self_nonneg e0
    have h1 := mul_self_nonneg e1
    have h2 := mul_self_nonneg e2
    have h3 := mul_self_nonneg e3
    refine ⟨?_, ?_, ?_, ?_⟩ <;> [skip; skip; skip; skip] <;>
      (rw [← mul_self_eq_zero]; nlinarith)
  · rintro ⟨rfl, rfl, rfl, rfl⟩
    norm_num

/-- C10: in the 2x2 branch of `CalcSingularvalue`, the computed larger
singular value `s` of the scaled matrix vanishes exactly for the zero
matrix, and when it does the branch returns `0` for every index through the
early `return 0` guard, so the quotient `|e0*e3 - e1*e2| / s` is never
evaluated with `s = 0`. -/
theorem calcSingularvalue2_zero_guard (d0 d1 d2 d3 : ℝ) (i : ℕ) :
    (sv2s (d0 / GetScalingFactor (dmax4 d0 d1 d2 d3))
        (d1 / GetScalingFactor (dmax4 d0 d1 d2 d3))
        (d2 / GetScalingFactor (dmax4 d0 d1 d2 d3))
        (d3 / GetScalingFactor (dmax4 d0 d1 d2 d3)) = 0 ↔
      (d0 = 0 ∧ d1 = 0 ∧ d2 = 0 ∧ d3 = 0)) ∧
    ((d0 = 0 ∧ d1 = 0 ∧ d2 = 0 ∧ d3 = 0) →
      CalcSingularvalue2 d0 d1 d2 d3 i = 0) := by
  have hm : GetScalingFactor (dmax4 d0 d1 d2 d3) ≠ 0 :=
    (GetScalingFactor_pos _).ne'
  constructor
  · rw [sv2s_eq_zero_iff]
    simp [div_eq_zero_iff, hm]
  · rintro ⟨rfl, rfl, rfl, rfl⟩
    unfold CalcSingularvalue2
    rw [if_pos]
    simp only [zero_div]
    exact (sv2s_eq_zero_iff 0 0 0 0).mpr ⟨rfl, rfl, rfl, rfl⟩

/-! ### C3: the `Q <= 0` triple-root branch -/

/-- C3: when the invariant `Q` of the scaled 3x3 matrix is non-positive, the
3x3 branch of `CalcEigenvalues` returns all three eigenvalues equal to
`aa = trace/3` rescaled by `mult` (that is, `(d11+d22+d33)/3` of the
original entries) and the identity matrix as eigenvectors. -/
theorem calcEigenvalues3_tripleRoot (d11 d12 d22 d13 d23 d33 : ℝ)
    (hQ : Qinv (d11 / GetScalingFactor (dmax6 d11 d22 d33 d12 d13 d23))
        (d22 / GetScalingFactor (dmax6 d11 d22 d33 d12 d13 d23))
        (d33 / GetScalingFactor (dmax6 d11 d22 d33 d12 d13 d23))
        (d12 / GetScalingFactor (dmax6 d11 d22 d33 d12 d13 d23))
        (d13 / GetScalingFactor (dmax6 d11 d22 d33 d12 d13 d23))
        (d23 / GetScalingFactor (dmax6 d11 d22 d33 d12 d13 d23)) ≤ 0) :
    CalcEigenvalues3 d11 d12 d22 d13 d23 d33 =
      ⟨(d11 + d22 + d33) / 3, (d11 + d22 + d33) / 3, (d11 + d22 + d33) / 3,
        1, 0, 0, 0, 1, 0, 0, 0, 1⟩ := by
  have hm : GetScalingFactor (dmax6 d11 d22 d33 d12 d13 d23) ≠ 0 :=
    (GetScalingFactor_pos _).ne'
  simp only [CalcEigenvalues3, eig3core]
  rw [if_pos hQ]
  simp only [Eig3.mk.injEq]
  refine ⟨?_, ?_, ?_, trivial, trivial, trivial, trivial, trivial, trivial,
    trivial, trivial, trivial⟩ <;> (field_simp; ring)

theorem calcEigenvalues3_tripleRoot_witness :
    CalcEigenvalues3 0 0 0 0 0 0 =
      ⟨((0 : ℝ) + 0 + 0) / 3, ((0 : ℝ) + 0 + 0) / 3, ((0 : ℝ) + 0 + 0) / 3,
        1, 0, 0, 0, 1, 0, 0, 0, 1⟩ :=
  calcEigenvalues3_tripleRoot 0 0 0 0 0 0
    (by norm_num [Qinv])

/-! ### C6: the kernel dimension tag of `KernelVector3S` -/

theorem KernelVector3G_fin_kdim (mode : ℕ) (d1 d2 d3 c12 c13 c23 c32 : ℝ) :
    (KernelVector3G_fin mode d1 d2 d3 c12 c13 c23 c32).kdim = 1 ∨
    (KernelVector3G_fin mode d1 d2 d3 c12 c13 c23 c32).kdim = 2 := by
  simp only [KernelVector3G_fin]
  split
  · right; rfl
  · left; rfl

theorem KernelVector3G_aux_kdim (mode : ℕ) (d1 d2 d3 c12 c13 c23 c21 c31 c32 : ℝ) :
    (KernelVector3G_aux mode d1 d2 d3 c12 c13 c23 c21 c31 c32).kdim = 1 ∨
    (KernelVector3G_aux mode d1 d2 d3 c12 c13 c23 c21 c31 c32).kdim = 2 := by
  simp only [KernelVector3G_aux]
  split
  · exact KernelVector3G_fin_kdim _ _ _ _ _ _ _ _
  · split
    · exact KernelVector3G_fin_kdim _ _ _ _ _ _ _ _
    · split
      · exact KernelVector3G_fin_kdim _ _ _ _ _ _ _ _
      · exact KernelVector3G_fin_kdim _ _ _ _ _ _ _ _

theorem KernelVector3S_row_kdim (mode : ℕ) (d1 d2 d3 c12 c13 c23 : ℝ) :
    (KernelVector3S_row mode d1 d2 d3 c12 c13 c23).kdim = 1 ∨
    (KernelVector3S_row mode d1 d2 d3 c12 c13 c23).kdim = 2 := by
  simp only [KernelVector3S_row]
  split
  · split
    · split
      · exact KernelVector3G_aux_kdim _ _ _ _ _ _ _ _ _ _
      · exact KernelVector3G_aux_kdim _ _ _ _ _ _ _ _ _ _
    · split
      · exact KernelVector3G_aux_kdim _ _ _ _ _ _ _ _ _ _
      · exact KernelVector3G_aux_kdim _ _ _ _ _ _ _ _ _ _
  · split
    · split
      · exact KernelVector3G_aux_kdim _ _ _ _ _ _ _ _ _ _
      · exact KernelVector3G_aux_kdim _ _ _ _ _ _ _ _ _ _
    · split
      · exact KernelVector3G_aux_kdim _ _ _ _ _ _ _ _ _ _
      · exact KernelVector3G_aux_kdim _ _ _ _ _ _ _ _ _ _

theorem sum3abs_eq_zero {a b c : ℝ} (h : |a| + |b| + |c| = 0) :
    a = 0 ∧ b = 0 ∧ c = 0 := by
  have ha := abs_nonneg a
  have hb := abs_nonneg b
  have hc := abs_nonneg c
  refine ⟨abs_eq_zero.mp ?_, abs_eq_zero.mp ?_, abs_eq_zero.mp ?_⟩ <;> linarith

/-- C6: `KernelVector3S` always returns a kernel dimension in `{1, 2, 3}`,
and it returns `3` exactly when all six entries of the symmetric matrix are
zero; every nonzero input yields `1` or `2` together with the vector held in
the result. -/
theorem kernelVector3S_kdim (mode : ℕ) (d12 d13 d23 d1 d2 d3 : ℝ) :
    ((KernelVector3S mode d12 d13 d23 d1 d2 d3).kdim = 1 ∨
     (KernelVector3S mode d12 d13 d23 d1 d2 d3).kdim = 2 ∨
     (KernelVector3S mode d12 d13 d23 d1 d2 d3).kdim = 3) ∧
    ((KernelVector3S mode d12 d13 d23 d1 d2 d3).kdim = 3 ↔
      (d1 = 0 ∧ d2 = 0 ∧ d3 = 0 ∧ d12 = 0 ∧ d13 = 0 ∧ d23 = 0)) := by
  have h1 := abs_nonneg d1
  have h2 := abs_nonneg d2
  have h3 := abs_nonneg d3
  have h12 := abs_nonneg d12
  have h13 := abs_nonneg d13
  have h23 := abs_nonneg d23
  simp only [KernelVector3S]
  split
  case isTrue ha =>
    split
    case isTrue hb =>
      split
      case isTrue hz =>
        obtain ⟨e1, e12, e13⟩ := sum3abs_eq_zero hz
        have hz2 : |d2| + |d12| + |d23| = 0 := by linarith
        have hz3 : |d3| + |d13| + |d23| = 0 := by linarith
        obtain ⟨e2, -, e23⟩ := sum3abs_eq_zero hz2
        obtain ⟨e3, -, -⟩ := sum3abs_eq_zero hz3
        exact ⟨Or.inr (Or.inr rfl),
          iff_of_true rfl ⟨e1, e2, e3, e12, e13, e23⟩⟩
      case isFalse hz =>
        refine ⟨?_, iff_of_false ?_ ?_⟩
        · rcases KernelVector3S_row_kdim mode d1 d2 d3 d12 d13 d23 with h | h
          · exact Or.inl h
          · exact Or.inr (Or.inl h)
        · rcases KernelVector3S_row_kdim mode d1 d2 d3 d12 d13 d23 with h | h <;>
            simp [h]
        · rintro ⟨ha1, -, -, ha12, ha13, -⟩
          exact hz (by simp [ha1, ha12, ha13])
    case isFalse hb =>
      split
      case isTrue hz =>
        exfalso
        push_neg at hb
        nlinarith
      case isFalse hz =>
        refine ⟨?_, iff_of_false ?_ ?_⟩
        · rcases KernelVector3S_row_kdim mode d2 d1 d3 d12 d23 d13 with h | h
          · exact Or.inl h
          · exact Or.inr (Or.inl h)
        · rcases KernelVector3S_row_kdim mode d2 d1 d3 d12 d23 d13 with h | h <;>
            simp [h]
        · rintro ⟨-, ha2, -, ha12, -, ha23⟩
          exact hz (by simp [ha2, ha12, ha23])
  case isFalse ha =>
    split
    case isTrue hb =>
      split
      case isTrue hz =>
        exfalso
        push_neg at ha
        nlinarith
      case isFalse hz =>
        refine ⟨?_, iff_of_false ?_ ?_⟩
        · rcases KernelVector3S_row_kdim mode d2 d1 d3 d12 d23 d13 with h | h
          · exact Or.inl h
          · exact Or.inr (Or.inl h)
        · rcases KernelVector3S_row_kdim mode d2 d1 d3 d12 d23 d13 with h | h <;>
            simp [h]
        · rintro ⟨-, ha2, -, ha12, -, ha23⟩
          exact hz (by simp [ha2, ha12, ha23])
    case isFalse hb =>
      split
      case isTrue hz =>
        exfalso
        push_neg at ha
        nlinarith
      case isFalse hz =>
        refine ⟨?_, iff_of_false ?_ ?_⟩
        · rcases KernelVector3S_row_kdim mode d3 d2 d1 d23 d13 d12 with h | h
          · exact Or.inl h
          · exact Or.inr (Or.inl h)
        · rcases KernelVector3S_row_kdim mode d3 d2 d1 d23 d13 d12 with h | h <;>
            simp [h]
        · rintro ⟨-, -, ha3, -, ha13, ha23⟩
          exact hz (by simp [ha3, ha13, ha23])

/-! ### C2: the 2x2 rotation and eigenvalue formulas -/

theorem sqrt_1_eps_eq : sqrt_1_eps = (2 : ℝ) ^ (26 : ℕ) := by
  unfold sqrt_1_eps
  rw [show (1 / (2 : ℝ) ^ (-52 : ℤ)) =
      ((2 : ℝ) ^ (26 : ℕ)) * ((2 : ℝ) ^ (26 : ℕ)) by
    rw [zpow_neg, one_div, inv_inv]
    norm_num]
  exact Real.sqrt_mul_self (by positivity)

/-- C2 counterexample: at `(d1, d12, d2) = (0, 2, 3)` the claim's premises
hold (`d12 = 2 ≠ 0` and `|zeta| = 3/4 < sqrt(1/eps)`), yet the first
eigenvalue returned by `Eigensystem2S` is `-1` while the claimed
`d1 - t*d12` with `t = d12*sign(zeta)/(|zeta| + sqrt(1+zeta^2))` is `-2`:
the claim applies the factor `d12` twice. -/
theorem eigensystem2S_claim_false :
    ((2 : ℝ) ≠ 0 ∧ |((3 : ℝ) - 0) / (2 * 2)| < sqrt_1_eps) ∧
    ¬ Eigensystem2S_claimedForm 0 2 3 := by
  have h34 : ((3 : ℝ) - 0) / (2 * 2) = 3 / 4 := by norm_num
  have habs34 : |(3 / 4 : ℝ)| = 3 / 4 := abs_of_nonneg (by norm_num)
  have hsq : Real.sqrt (1 + (3 / 4 : ℝ) * (3 / 4)) = 5 / 4 := by
    rw [show (1 + (3 / 4 : ℝ) * (3 / 4)) = (5 / 4 : ℝ) * (5 / 4) by norm_num]
    exact Real.sqrt_mul_self (by norm_num)
  have hlt : |(3 / 4 : ℝ)| < sqrt_1_eps := by
    rw [habs34, sqrt_1_eps_eq]
    norm_num
  have hc : copysign (1 / (|(3 / 4 : ℝ)| +
      Real.sqrt (1 + (3 / 4 : ℝ) * (3 / 4)))) (3 / 4) = 1 / 2 := by
    unfold copysign
    rw [if_neg (by norm_num : ¬((3 / 4 : ℝ) < 0)), habs34, hsq,
      abs_of_nonneg (by norm_num : (0 : ℝ) ≤ 1 / (3 / 4 + 5 / 4))]
    norm_num
  have hES : (Eigensystem2S 2 0 3).1 = -1 := by
    simp only [Eigensystem2S]
    rw [if_neg (by norm_num : ¬((2 : ℝ) = 0))]
    simp only [h34]
    rw [if_pos hlt, hc]
    norm_num
  refine ⟨⟨by norm_num, by rw [h34]; exact hlt⟩, ?_⟩
  intro hcl
  simp only [Eigensystem2S_claimedForm, h34] at hcl
  have h1 := congrArg Prod.fst hcl
  simp only [hES] at h1
  rw [hc] at h1
  norm_num at h1

/-- C2 amended: in the `|zeta| < sqrt(1/eps)` branch the factor `d12`
appears only in the eigenvalue shift, not inside `t`: with
`t = sign(zeta)/(|zeta| + sqrt(1+zeta^2))`, `Eigensystem2S` returns the
eigenvalues `d1 - t*d12` and `d2 + t*d12` and the rotation
`c = sqrt(1/(1+t^2))`, `s = c*t`; the returned pair moreover has sum
`d1 + d2` and product `d1*d2 - d12^2`, so it is exactly the spectrum of
`[[d1,d12],[d12,d2]]`. -/
theorem eigensystem2S_spec (d1 d12 d2 : ℝ) (h12 : d12 ≠ 0)
    (hz : |(d2 - d1) / (2 * d12)| < sqrt_1_eps) :
    let zeta := (d2 - d1) / (2 * d12)
    let t := copysign (1 / (|zeta| + Real.sqrt (1 + zeta * zeta))) zeta
    Eigensystem2S d12 d1 d2 =
      (d1 - t * d12, d2 + t * d12, Real.sqrt (1 / (1 + t * t)),
        Real.sqrt (1 / (1 + t * t)) * t) ∧
    (d1 - t * d12) + (d2 + t * d12) = d1 + d2 ∧
    (d1 - t * d12) * (d2 + t * d12) = d1 * d2 - d12 * d12 := by
  intro zeta t
  have hznn : (0 : ℝ) ≤ 1 + zeta * zeta := by nlinarith [mul_self_nonneg zeta]
  have hw : Real.sqrt (1 + zeta * zeta) * Real.sqrt (1 + zeta * zeta) =
      1 + zeta * zeta := Real.mul_self_sqrt hznn
  have hwpos : 0 < Real.sqrt (1 + zeta * zeta) :=
    Real.sqrt_pos.mpr (by nlinarith [mul_self_nonneg zeta])
  have key : t * t + 2 * zeta * t = 1 := by
    unfold t
    unfold copysign
    split
    case isTrue hneg =>
      have hd : 0 < -zeta + Real.sqrt (1 + zeta * zeta) := by
        linarith [hwpos]
      rw [abs_of_neg hneg, abs_of_pos (one_div_pos.mpr hd)]
      field_simp
      nlinarith [hw]
    case isFalse hpos =>
      push_neg at hpos
      have hd : 0 < zeta + Real.sqrt (1 + zeta * zeta) := by
        linarith [hwpos]
      rw [abs_of_nonneg hpos, abs_of_pos (one_div_pos.mpr hd)]
      field_simp
      nlinarith [hw]
  have hzd : zeta * (2 * d12) = d2 - d1 := by
    unfold zeta
    field_simp
  refine ⟨?_, by ring, ?_⟩
  · simp only [Eigensystem2S]
    rw [if_neg h12, if_pos hz]
  · linear_combination (-(d12 * d12)) * key + (t * d12) * hzd

theorem eigensystem2S_spec_witness :
    ((2 : ℝ) ≠ 0 ∧ |((3 : ℝ) - 0) / (2 * 2)| < sqrt_1_eps) ∧
    (let zeta := ((3 : ℝ) - 0) / (2 * 2)
     let t := copysign (1 / (|zeta| + Real.sqrt (1 + zeta * zeta))) zeta
     Eigensystem2S 2 0 3 =
       (0 - t * 2, 3 + t * 2, Real.sqrt (1 / (1 + t * t)),
         Real.sqrt (1 / (1 + t * t)) * t) ∧
     (0 - t * 2) + (3 + t * 2) = 0 + 3 ∧
     (0 - t * 2) * (3 + t * 2) = 0 * 3 - 2 * 2) := by
  have h2 : (2 : ℝ) ≠ 0 := by norm_num
  have hz : |((3 : ℝ) - 0) / (2 * 2)| < sqrt_1_eps := by
    rw [show |((3 : ℝ) - 0) / (2 * 2)| = 3 / 4 by
      rw [abs_of_nonneg] <;> norm_num]
    rw [sqrt_1_eps_eq]
    norm_num
  exact ⟨⟨h2, hz⟩, eigensystem2S_spec 0 2 3 h2 hz⟩

/-! ### C7: scale linearity through the ScaleNormalizer -/

theorem mul_max2 {k : ℝ} (hk : 0 ≤ k) (a b : ℝ) :
    max (k * a) (k * b) = k * max a b :=
  (mul_max_of_nonneg a b hk).symm

theorem dmax6_nonneg (a b c d e f : ℝ) : 0 ≤ dmax6 a b c d e f :=
  le_trans (abs_nonneg f) (le_max_right _ _)

theorem dmax6_scale (j : ℤ) (a b c d e f : ℝ) :
    dmax6 ((2 : ℝ) ^ j * a) ((2 : ℝ) ^ j * b) ((2 : ℝ) ^ j * c)
      ((2 : ℝ) ^ j * d) ((2 : ℝ) ^ j * e) ((2 : ℝ) ^ j * f) =
    (2 : ℝ) ^ j * dmax6 a b c d e f := by
  have h2 : (0 : ℝ) ≤ 2 ^ j := le_of_lt (zpow_pos (by norm_num) _)
  unfold dmax6
  simp only [abs_mul, abs_of_nonneg h2]
  rw [mul_max2 h2, mul_max2 h2, mul_max2 h2, mul_max2 h2, mul_max2 h2]

theorem dmax6_eq_zero {a b c d e f : ℝ} (h : dmax6 a b c d e f = 0) :
    a = 0 ∧ b = 0 ∧ c = 0 ∧ d = 0 ∧ e = 0 ∧ f = 0 := by
  unfold dmax6 at h
  have h5 : max (max (max (max |a| |b|) |c|) |d|) |e| ≤ 0 := h ▸ le_max_left _ _
  have hf : |f| ≤ 0 := h ▸ le_max_right _ _
  have h4 : max (max (max |a| |b|) |c|) |d| ≤ 0 := le_trans (le_max_left _ _) h5
  have he : |e| ≤ 0 := le_trans (le_max_right _ _) h5
  have h3 : max (max |a| |b|) |c| ≤ 0 := le_trans (le_max_left _ _) h4
  have hd : |d| ≤ 0 := le_trans (le_max_right _ _) h4
  have h2 : max |a| |b| ≤ 0 := le_trans (le_max_left _ _) h3
  have hc : |c| ≤ 0 := le_trans (le_max_right _ _) h3
  have ha : |a| ≤ 0 := le_trans (le_max_left _ _) h2
  have hb : |b| ≤ 0 := le_trans (le_max_right _ _) h2
  exact ⟨abs_eq_zero.mp (le_antisymm ha (abs_nonneg a)),
    abs_eq_zero.mp (le_antisymm hb (abs_nonneg b)),
    abs_eq_zero.mp (le_antisymm hc (abs_nonneg c)),
    abs_eq_zero.mp (le_antisymm hd (abs_nonneg d)),
    abs_eq_zero.mp (le_antisymm he (abs_nonneg e)),
    abs_eq_zero.mp (le_antisymm hf (abs_nonneg f))⟩

theorem GetScalingFactor_scale (j : ℤ) {x : ℝ} (hx : 0 < x) :
    GetScalingFactor ((2 : ℝ) ^ j * x) = (2 : ℝ) ^ j * GetScalingFactor x := by
  have h2 : (0 : ℝ) < 2 ^ j := zpow_pos (by norm_num) _
  unfold GetScalingFactor
  rw [if_pos (mul_pos h2 hx), if_pos hx]
  have hlog : Real.logb 2 ((2 : ℝ) ^ j * x) = (j : ℝ) + Real.logb 2 x := by
    unfold Real.logb
    rw [Real.log_mul (ne_of_gt h2) hx.ne', Real.log_zpow]
    have hl2 : Real.log 2 ≠ 0 := ne_of_gt (Real.log_pos (by norm_num))
    field_simp
  rw [hlog, Int.floor_int_add, add_assoc, zpow_add₀ (by norm_num : (2 : ℝ) ≠ 0)]

/-- C7: multiplying every entry of the symmetric 3x3 matrix by a power of two
`k = 2^j > 0` multiplies each eigenvalue returned by the 3x3 branch of
`CalcEigenvalues` by exactly `k`: the maximum entry scales by `k`, so the
power-of-two `mult` scales by `k`, the scaled entries coincide, and the
eigenvalues are multiplied back by the scaled `mult`. -/
theorem calcEigenvalues3_scale (j : ℤ) (d11 d12 d22 d13 d23 d33 : ℝ) :
    (CalcEigenvalues3 ((2 : ℝ) ^ j * d11) ((2 : ℝ) ^ j * d12)
        ((2 : ℝ) ^ j * d22) ((2 : ℝ) ^ j * d13) ((2 : ℝ) ^ j * d23)
        ((2 : ℝ) ^ j * d33)).l0 =
      (2 : ℝ) ^ j * (CalcEigenvalues3 d11 d12 d22 d13 d23 d33).l0 ∧
    (CalcEigenvalues3 ((2 : ℝ) ^ j * d11) ((2 : ℝ) ^ j * d12)
        ((2 : ℝ) ^ j * d22) ((2 : ℝ) ^ j * d13) ((2 : ℝ) ^ j * d23)
        ((2 : ℝ) ^ j * d33)).l1 =
      (2 : ℝ) ^ j * (CalcEigenvalues3 d11 d12 d22 d13 d23 d33).l1 ∧
    (CalcEigenvalues3 ((2 : ℝ) ^ j * d11) ((2 : ℝ) ^ j * d12)
        ((2 : ℝ) ^ j * d22) ((2 : ℝ) ^ j * d13) ((2 : ℝ) ^ j * d23)
        ((2 : ℝ) ^ j * d33)).l2 =
      (2 : ℝ) ^ j * (CalcEigenvalues3 d11 d12 d22 d13 d23 d33).l2 := by
  have hk : (0 : ℝ) < 2 ^ j := zpow_pos (by norm_num) _
  rcases eq_or_lt_of_le (dmax6_nonneg d11 d22 d33 d12 d13 d23) with h0 | hpos
  · obtain ⟨e1, e2, e3, e4, e5, e6⟩ := dmax6_eq_zero h0.symm
    subst e1
    subst e2
    subst e3
    subst e4
    subst e5
    subst e6
    have hz : CalcEigenvalues3 0 0 0 0 0 0 =
        ⟨0, 0, 0, 1, 0, 0, 0, 1, 0, 0, 0, 1⟩ := by
      simp only [CalcEigenvalues3, eig3core]
      rw [if_pos (by norm_num [Qinv])]
      norm_num
    simp only [mul_zero, hz]
    norm_num
  · have hd := dmax6_scale j d11 d22 d33 d12 d13 d23
    have hg := GetScalingFactor_scale j hpos
    have hm : GetScalingFactor (dmax6 d11 d22 d33 d12 d13 d23) ≠ 0 :=
      (GetScalingFactor_pos _).ne'
    simp only [CalcEigenvalues3]
    rw [hd, hg, mul_div_mul_left _ _ hk.ne', mul_div_mul_left _ _ hk.ne',
      mul_div_mul_left _ _ hk.ne', mul_div_mul_left _ _ hk.ne',
      mul_div_mul_left _ _ hk.ne', mul_div_mul_left _ _ hk.ne']
    refine ⟨?_, ?_, ?_⟩ <;> (dsimp only; ring)

/-! ### C5: the Householder deflation `Reduce3S` -/

open Matrix

theorem symMat3_transpose (d1 d2 d3 d12 d13 d23 : ℝ) :
    (symMat3 d1 d2 d3 d12 d13 d23)ᵀ = symMat3 d1 d2 d3 d12 d13 d23 := by
  ext i j
  fin_cases i <;> fin_cases j <;> simp [symMat3]

theorem qmat_transpose (g v1 v2 v3 : ℝ) :
    (qmat g v1 v2 v3)ᵀ = qmat g v1 v2 v3 := by
  have hW : (Matrix.vecMulVec ![v1, v2, v3] ![v1, v2, v3])ᵀ =
      Matrix.vecMulVec ![v1, v2, v3] ![v1, v2, v3] := by
    ext i j
    rw [Matrix.transpose_apply, Matrix.vecMulVec_apply, Matrix.vecMulVec_apply,
      mul_comm]
  unfold qmat
  rw [Matrix.transpose_sub, Matrix.transpose_one, Matrix.transpose_smul, hW]

theorem qmat_entry (g v1 v2 v3 : ℝ) (i j : Fin 3) :
    qmat g v1 v2 v3 i j =
      (if i = j then 1 else 0) - g * (![v1, v2, v3] i * ![v1, v2, v3] j) := by
  fin_cases i <;> fin_cases j <;>
    simp [qmat, Matrix.sub_apply, Matrix.one_apply, Matrix.smul_apply,
      Matrix.vecMulVec_apply, smul_eq_mul]

theorem qmat_v0 (g : ℝ) : qmat g 0 0 0 = 1 := by
  ext i j
  rw [qmat_entry]
  fin_cases i <;> fin_cases j <;> norm_num [Matrix.one_apply]

theorem qmat_mul_self (g v1 v2 v3 : ℝ)
    (h : g * (v1 * v1 + v2 * v2 + v3 * v3) = 2) :
    qmat g v1 v2 v3 * qmat g v1 v2 v3 = 1 := by
  ext i j
  rw [Matrix.mul_apply, Fin.sum_univ_three]
  simp only [qmat_entry]
  fin_cases i <;> fin_cases j <;> simp [Matrix.one_apply]
  · linear_combination (g * v1 * v1) * h
  · linear_combination (g * v1 * v2) * h
  · linear_combination (g * v1 * v3) * h
  · linear_combination (g * v2 * v1) * h
  · linear_combination (g * v2 * v2) * h
  · linear_combination (g * v2 * v3) * h
  · linear_combination (g * v3 * v1) * h
  · linear_combination (g * v3 * v2) * h
  · linear_combination (g * v3 * v3) * h

theorem pmat_one : pmat 1 = 1 := by
  unfold pmat
  norm_num

theorem pmat2_sq : pmat 2 * pmat 2 = 1 := by
  unfold pmat
  norm_num
  ext i j
  fin_cases i <;> fin_cases j <;>
    simp [Matrix.mul_apply, Fin.sum_univ_three, Matrix.one_apply,
      Matrix.vecHead, Matrix.vecTail]

theorem pmat3_sq : pmat 3 * pmat 3 = 1 := by
  unfold pmat
  norm_num
  ext i j
  fin_cases i <;> fin_cases j <;>
    simp [Matrix.mul_apply, Fin.sum_univ_three, Matrix.one_apply,
      Matrix.vecHead, Matrix.vecTail]

theorem pmat2_vec (z1 z2 z3 : ℝ) :
    (pmat 2).mulVec ![z1, z2, z3] = ![z2, z1, z3] := by
  unfold pmat
  norm_num
  funext i
  fin_cases i <;> simp [Matrix.mulVec, dotProduct, Fin.sum_univ_three]

theorem pmat3_vec (z1 z2 z3 : ℝ) :
    (pmat 3).mulVec ![z1, z2, z3] = ![z3, z2, z1] := by
  unfold pmat
  norm_num
  funext i
  fin_cases i <;> simp [Matrix.mulVec, dotProduct, Fin.sum_univ_three]

theorem pmat2_conj (d1 d2 d3 d12 d13 d23 : ℝ) :
    pmat 2 * symMat3 d1 d2 d3 d12 d13 d23 * pmat 2 =
      symMat3 d2 d1 d3 d12 d23 d13 := by
  unfold pmat
  norm_num
  ext i j
  fin_cases i <;> fin_cases j <;>
    simp [Matrix.mul_apply, Fin.sum_univ_three, symMat3]

theorem pmat3_conj (d1 d2 d3 d12 d13 d23 : ℝ) :
    pmat 3 * symMat3 d1 d2 d3 d12 d13 d23 * pmat 3 =
      symMat3 d3 d2 d1 d23 d13 d12 := by
  unfold pmat
  norm_num
  ext i j
  fin_cases i <;> fin_cases j <;>
    simp [Matrix.mul_apply, Fin.sum_univ_three, symMat3]

theorem houseV_reflect (y1 y2 y3 : ℝ)
    (hunit : y1 * y1 + y2 * y2 + y3 * y3 = 1) :
    ∃ σ : ℝ, (σ = 1 ∨ σ = -1) ∧
      (houseQ y1 y2 y3).mulVec ![y1, y2, y3] = σ • ![(1 : ℝ), 0, 0] ∧
      houseQ y1 y2 y3 * houseQ y1 y2 y3 = 1 := by
  by_cases hs : hypot y2 y3 = 0
  case pos =>
    have h23 : y2 * y2 + y3 * y3 ≤ 0 := by
      unfold hypot at hs
      exact Real.sqrt_eq_zero'.mp hs
    have hy2 : y2 = 0 := by nlinarith [mul_self_nonneg y2, mul_self_nonneg y3]
    have hy3 : y3 = 0 := by nlinarith [mul_self_nonneg y2, mul_self_nonneg y3]
    subst hy2
    subst hy3
    have hQ : houseQ y1 0 0 = 1 := by
      unfold houseQ
      simp only [houseV, if_pos hs]
      exact qmat_v0 _
    refine ⟨y1, mul_self_eq_one_iff.mp (by nlinarith), ?_, by rw [hQ, one_mul]⟩
    rw [hQ, Matrix.one_mulVec]
    funext i
    fin_cases i <;> simp
  case neg =>
    have h23pos : 0 < y2 * y2 + y3 * y3 := by
      rcases lt_or_eq_of_le (add_nonneg (mul_self_nonneg y2) (mul_self_nonneg y3)) with h | h
      · exact h
      · exact absurd (by unfold hypot; rw [← h, Real.sqrt_zero]) hs
    have hcase : (0 ≤ y1 ∧ copysign 1 y1 = 1) ∨ (y1 < 0 ∧ copysign 1 y1 = -1) := by
      unfold copysign
      split
      · exact Or.inr ⟨‹_›, by rw [abs_one]⟩
      · exact Or.inl ⟨le_of_not_lt ‹_›, by rw [abs_one]⟩
    set σ := copysign 1 y1 with hσdef
    clear_value σ
    have hσ : σ = 1 ∨ σ = -1 := by
      rcases hcase with ⟨-, h⟩ | ⟨-, h⟩
      · exact Or.inl h
      · exact Or.inr h
    have hσ2 : σ * σ = 1 := by rcases hσ with h | h <;> rw [h] <;> norm_num
    have hy1sq : y1 * y1 < 1 := by nlinarith
    have hne : 1 - σ * y1 ≠ 0 := by
      rcases hσ with h | h <;> rw [h] <;> intro h0 <;> nlinarith
    have hyσ : y1 + σ ≠ 0 := by
      rcases hcase with ⟨h1, h2⟩ | ⟨h1, h2⟩ <;> rw [h2] <;> intro h0 <;> nlinarith
    have hs2 : hypot y2 y3 * hypot y2 y3 = y2 * y2 + y3 * y3 :=
      Real.mul_self_sqrt (le_of_lt h23pos)
    have hw : -hypot y2 y3 * (hypot y2 y3 / (y1 + σ)) = y1 - σ := by
      rw [← mul_div_assoc, neg_mul, hs2, div_eq_iff hyσ]
      linear_combination (-1 : ℝ) * hunit + hσ2
    set M := max (max |y1 - σ| |y2|) |y3| with hMdef
    have hMy2 : |y2| ≤ M := le_trans (le_max_right _ _) (le_max_left _ _)
    have hMy3 : |y3| ≤ M := le_max_right _ _
    clear_value M
    have hMpos : 0 < M := by
      rcases lt_or_eq_of_le (abs_nonneg y2) with h | h
      · exact lt_of_lt_of_le h hMy2
      · have hy2 : y2 = 0 := abs_eq_zero.mp h.symm
        have h3 : 0 < |y3| := by
          rw [abs_pos]
          intro h3
          rw [hy2, h3] at h23pos
          norm_num at h23pos
        exact lt_of_lt_of_le h3 hMy3
    have hM : M ≠ 0 := hMpos.ne'
    have hQ : houseQ y1 y2 y3 =
        qmat (2 / ((y1 - σ) / M * ((y1 - σ) / M) + y2 / M * (y2 / M) +
          y3 / M * (y3 / M))) ((y1 - σ) / M) (y2 / M) (y3 / M) := by
      unfold houseQ
      simp only [houseV, if_neg hs]
      rw [← hσdef, hw, ← hMdef]
    rw [hQ]
    set v1 : ℝ := (y1 - σ) / M with hv1def
    set v2 : ℝ := y2 / M with hv2def
    set v3 : ℝ := y3 / M with hv3def
    have hv1m : v1 * M = y1 - σ := by rw [hv1def]; exact div_mul_cancel₀ _ hM
    have hv2m : v2 * M = y2 := by rw [hv2def]; exact div_mul_cancel₀ _ hM
    have hv3m : v3 * M = y3 := by rw [hv3def]; exact div_mul_cancel₀ _ hM
    clear_value v1 v2 v3
    set S : ℝ := v1 * v1 + v2 * v2 + v3 * v3 with hSdef
    clear_value S
    have hS : S * (M * M) = 2 - 2 * (σ * y1) := by
      linear_combination (M * M) * hSdef + (v1 * M + (y1 - σ)) * hv1m +
        (v2 * M + y2) * hv2m + (v3 * M + y3) * hv3m + hunit + hσ2
    have hSne : S ≠ 0 := by
      intro h0
      rw [h0, zero_mul] at hS
      apply hne
      linarith
    have hg2 : 2 / S * S = 2 := div_mul_cancel₀ 2 hSne
    have hP : (v1 * y1 + v2 * y2 + v3 * y3) * M = 1 - σ * y1 := by
      linear_combination y1 * hv1m + y2 * hv2m + y3 * hv3m + hunit
    have hgP : 2 / S * (v1 * y1 + v2 * y2 + v3 * y3) = M := by
      have h1 : (2 / S * (v1 * y1 + v2 * y2 + v3 * y3) - M) * (S * M) = 0 := by
        linear_combination ((v1 * y1 + v2 * y2 + v3 * y3) * M) * hg2 + 2 * hP - hS
      rcases mul_eq_zero.mp h1 with h2 | h2
      · linarith
      · exact absurd h2 (mul_ne_zero hSne hM)
    refine ⟨σ, hσ, ?_, qmat_mul_self _ _ _ _ (by rw [← hSdef]; exact hg2)⟩
    funext i
    fin_cases i <;>
      simp [Matrix.mulVec, dotProduct, Fin.sum_univ_three, qmat_entry,
        Pi.smul_apply, smul_eq_mul]
    · linear_combination (-v1) * hgP - hv1m
    · linear_combination (-v2) * hgP - hv2m
    · linear_combination (-v3) * hgP - hv3m

theorem houseQ_transpose (z1 z2 z3 : ℝ) :
    (houseQ z1 z2 z3)ᵀ = houseQ z1 z2 z3 := by
  unfold houseQ
  exact qmat_transpose _ _ _ _

theorem houseV_entries (m1 m2 m3 m12 m13 m23 y1 y2 y3 lam : ℝ)
    (hunit : y1 * y1 + y2 * y2 + y3 * y3 = 1)
    (heig : (symMat3 m1 m2 m3 m12 m13 m23).mulVec ![y1, y2, y3] =
      lam • ![y1, y2, y3]) :
    ∃ σ : ℝ, (σ = 1 ∨ σ = -1) ∧
      (houseQ y1 y2 y3).mulVec ![y1, y2, y3] = σ • ![(1 : ℝ), 0, 0] ∧
      (houseQ y1 y2 y3 * symMat3 m1 m2 m3 m12 m13 m23 * houseQ y1 y2 y3) 0 1 = 0 ∧
      (houseQ y1 y2 y3 * symMat3 m1 m2 m3 m12 m13 m23 * houseQ y1 y2 y3) 0 2 = 0 ∧
      (houseQ y1 y2 y3 * symMat3 m1 m2 m3 m12 m13 m23 * houseQ y1 y2 y3) 0 0 = lam := by
  obtain ⟨σ, hσ, hQy, hQQ⟩ := houseV_reflect y1 y2 y3 hunit
  have hσ2 : σ * σ = 1 := by rcases hσ with h | h <;> rw [h] <;> norm_num
  have hQe1 : (houseQ y1 y2 y3).mulVec ![(1 : ℝ), 0, 0] = σ • ![y1, y2, y3] := by
    have h1 : (houseQ y1 y2 y3).mulVec ((houseQ y1 y2 y3).mulVec ![y1, y2, y3]) =
        ![y1, y2, y3] := by
      rw [Matrix.mulVec_mulVec, hQQ, Matrix.one_mulVec]
    rw [hQy, Matrix.mulVec_smul] at h1
    calc (houseQ y1 y2 y3).mulVec ![(1 : ℝ), 0, 0]
        = (σ * σ) • (houseQ y1 y2 y3).mulVec ![(1 : ℝ), 0, 0] := by
          rw [hσ2, one_smul]
      _ = σ • (σ • (houseQ y1 y2 y3).mulVec ![(1 : ℝ), 0, 0]) := by
          rw [smul_smul]
      _ = σ • ![y1, y2, y3] := by rw [h1]
  have hcol : (houseQ y1 y2 y3 * symMat3 m1 m2 m3 m12 m13 m23 *
      houseQ y1 y2 y3).mulVec ![(1 : ℝ), 0, 0] = lam • ![(1 : ℝ), 0, 0] := by
    rw [← Matrix.mulVec_mulVec, ← Matrix.mulVec_mulVec, hQe1, Matrix.mulVec_smul,
      heig, Matrix.mulVec_smul, Matrix.mulVec_smul, hQy, smul_smul, smul_smul]
    congr 1
    linear_combination lam * hσ2
  have hent : ∀ i : Fin 3,
      (houseQ y1 y2 y3 * symMat3 m1 m2 m3 m12 m13 m23 * houseQ y1 y2 y3) i 0 =
        (lam • ![(1 : ℝ), 0, 0]) i := by
    intro i
    have h2 := congrFun hcol i
    rw [← h2]
    simp [Matrix.mulVec, dotProduct, Fin.sum_univ_three]
  have hB00 := hent 0
  have hB10 := hent 1
  have hB20 := hent 2
  simp at hB00 hB10 hB20
  have hBT : (houseQ y1 y2 y3 * symMat3 m1 m2 m3 m12 m13 m23 * houseQ y1 y2 y3)ᵀ =
      houseQ y1 y2 y3 * symMat3 m1 m2 m3 m12 m13 m23 * houseQ y1 y2 y3 := by
    rw [Matrix.transpose_mul, Matrix.transpose_mul, houseQ_transpose,
      symMat3_transpose, ← Matrix.mul_assoc]
  have hB01 : (houseQ y1 y2 y3 * symMat3 m1 m2 m3 m12 m13 m23 *
      houseQ y1 y2 y3) 0 1 = 0 := by
    have h3 : (houseQ y1 y2 y3 * symMat3 m1 m2 m3 m12 m13 m23 *
        houseQ y1 y2 y3) 0 1 = (houseQ y1 y2 y3 * symMat3 m1 m2 m3 m12 m13 m23 *
        houseQ y1 y2 y3) 1 0 := by
      conv_lhs => rw [← hBT]
      rw [Matrix.transpose_apply]
    rw [h3]
    exact hB10
  have hB02 : (houseQ y1 y2 y3 * symMat3 m1 m2 m3 m12 m13 m23 *
      houseQ y1 y2 y3) 0 2 = 0 := by
    have h3 : (houseQ y1 y2 y3 * symMat3 m1 m2 m3 m12 m13 m23 *
        houseQ y1 y2 y3) 0 2 = (houseQ y1 y2 y3 * symMat3 m1 m2 m3 m12 m13 m23 *
        houseQ y1 y2 y3) 2 0 := by
      conv_lhs => rw [← hBT]
      rw [Matrix.transpose_apply]
    rw [h3]
    exact hB20
  exact ⟨σ, hσ, hQy, hB01, hB02, hB00⟩

theorem Reduce3S_body_v (d1 d2 d3 d12 d13 d23 z1 z2 z3 : ℝ) :
    (Reduce3S_body d1 d2 d3 d12 d13 d23 z1 z2 z3).v1 = (houseV z1 z2 z3).1 ∧
    (Reduce3S_body d1 d2 d3 d12 d13 d23 z1 z2 z3).v2 = (houseV z1 z2 z3).2.1 ∧
    (Reduce3S_body d1 d2 d3 d12 d13 d23 z1 z2 z3).v3 = (houseV z1 z2 z3).2.2.1 ∧
    (Reduce3S_body d1 d2 d3 d12 d13 d23 z1 z2 z3).g = (houseV z1 z2 z3).2.2.2 := by
  simp only [Reduce3S_body]
  split <;> exact ⟨rfl, rfl, rfl, rfl⟩

theorem Reduce3S_k_cases (mode : ℕ) (z1 z2 z3 : ℝ) :
    Reduce3S_k mode z1 z2 z3 = 1 ∨ Reduce3S_k mode z1 z2 z3 = 2 ∨
      Reduce3S_k mode z1 z2 z3 = 3 := by
  unfold Reduce3S_k
  split_ifs <;> simp

theorem Reduce3S_eq1 (mode : ℕ) (d1 d2 d3 d12 d13 d23 z1 z2 z3 : ℝ)
    (h : Reduce3S_k mode z1 z2 z3 = 1) :
    Reduce3S mode d1 d2 d3 d12 d13 d23 z1 z2 z3 =
      ⟨1, (Reduce3S_body d1 d2 d3 d12 d13 d23 z1 z2 z3).d1,
        (Reduce3S_body d1 d2 d3 d12 d13 d23 z1 z2 z3).d2,
        (Reduce3S_body d1 d2 d3 d12 d13 d23 z1 z2 z3).d3, d12, d13,
        (Reduce3S_body d1 d2 d3 d12 d13 d23 z1 z2 z3).d23, z1, z2, z3,
        (Reduce3S_body d1 d2 d3 d12 d13 d23 z1 z2 z3).v1,
        (Reduce3S_body d1 d2 d3 d12 d13 d23 z1 z2 z3).v2,
        (Reduce3S_body d1 d2 d3 d12 d13 d23 z1 z2 z3).v3,
        (Reduce3S_body d1 d2 d3 d12 d13 d23 z1 z2 z3).g⟩ := by
  simp only [Reduce3S, h]
  norm_num

theorem Reduce3S_eq2 (mode : ℕ) (d1 d2 d3 d12 d13 d23 z1 z2 z3 : ℝ)
    (h : Reduce3S_k mode z1 z2 z3 = 2) :
    Reduce3S mode d1 d2 d3 d12 d13 d23 z1 z2 z3 =
      ⟨2, (Reduce3S_body d2 d1 d3 d12 d23 d13 z2 z1 z3).d1,
        (Reduce3S_body d2 d1 d3 d12 d23 d13 z2 z1 z3).d2,
        (Reduce3S_body d2 d1 d3 d12 d23 d13 z2 z1 z3).d3, d12, d23,
        (Reduce3S_body d2 d1 d3 d12 d23 d13 z2 z1 z3).d23, z1, z2, z3,
        (Reduce3S_body d2 d1 d3 d12 d23 d13 z2 z1 z3).v1,
        (Reduce3S_body d2 d1 d3 d12 d23 d13 z2 z1 z3).v2,
        (Reduce3S_body d2 d1 d3 d12 d23 d13 z2 z1 z3).v3,
        (Reduce3S_body d2 d1 d3 d12 d23 d13 z2 z1 z3).g⟩ := by
  simp only [Reduce3S, h]
  norm_num

theorem Reduce3S_eq3 (mode : ℕ) (d1 d2 d3 d12 d13 d23 z1 z2 z3 : ℝ)
    (h : Reduce3S_k mode z1 z2 z3 = 3) :
    Reduce3S mode d1 d2 d3 d12 d13 d23 z1 z2 z3 =
      ⟨3, (Reduce3S_body d3 d2 d1 d23 d13 d12 z3 z2 z1).d1,
        (Reduce3S_body d3 d2 d1 d23 d13 d12 z3 z2 z1).d2,
        (Reduce3S_body d3 d2 d1 d23 d13 d12 z3 z2 z1).d3, d23, d13,
        (Reduce3S_body d3 d2 d1 d23 d13 d12 z3 z2 z1).d23, z1, z2, z3,
        (Reduce3S_body d3 d2 d1 d23 d13 d12 z3 z2 z1).v1,
        (Reduce3S_body d3 d2 d1 d23 d13 d12 z3 z2 z1).v2,
        (Reduce3S_body d3 d2 d1 d23 d13 d12 z3 z2 z1).v3,
        (Reduce3S_body d3 d2 d1 d23 d13 d12 z3 z2 z1).g⟩ := by
  simp only [Reduce3S, h]
  norm_num


/-- C5: for a unit eigenvector `z` of the symmetric matrix `A` with
eigenvalue `lam`, `Reduce3S` returns a permutation index `k` in `{1,2,3}`
and Householder data whose reflection `Q` maps the permuted eigenvector
`P z` to `plus or minus e1`, and the conjugated matrix `B = Q P A P Q` has
`B(1,2) = B(1,3) = 0` and `B(1,1) = lam`. -/
theorem reduce3S_deflation (mode : ℕ) (d1 d2 d3 d12 d13 d23 z1 z2 z3 lam : ℝ)
    (hunit : z1 * z1 + z2 * z2 + z3 * z3 = 1)
    (heig : (symMat3 d1 d2 d3 d12 d13 d23).mulVec ![z1, z2, z3] =
      lam • ![z1, z2, z3]) :
    let o := Reduce3S mode d1 d2 d3 d12 d13 d23 z1 z2 z3
    let Qm := qmat o.g o.v1 o.v2 o.v3
    let B := Qm * pmat o.k * symMat3 d1 d2 d3 d12 d13 d23 * pmat o.k * Qm
    (o.k = 1 ∨ o.k = 2 ∨ o.k = 3) ∧
    (∃ σ : ℝ, (σ = 1 ∨ σ = -1) ∧
      Qm.mulVec ((pmat o.k).mulVec ![z1, z2, z3]) = σ • ![(1 : ℝ), 0, 0]) ∧
    B 0 1 = 0 ∧ B 0 2 = 0 ∧ B 0 0 = lam := by
  have hu2 : z2 * z2 + z1 * z1 + z3 * z3 = 1 := by linarith
  have hu3 : z3 * z3 + z2 * z2 + z1 * z1 = 1 := by linarith
  have he0 := congrFun heig 0
  have he1 := congrFun heig 1
  have he2 := congrFun heig 2
  simp [symMat3, Matrix.mulVec, dotProduct, Fin.sum_univ_three] at he0 he1 he2
  have hMy2 : (symMat3 d2 d1 d3 d12 d23 d13).mulVec ![z2, z1, z3] =
      lam • ![z2, z1, z3] := by
    funext i
    fin_cases i <;>
      simp [symMat3, Matrix.mulVec, dotProduct, Fin.sum_univ_three] <;>
      linarith [he0, he1, he2]
  have hMy3 : (symMat3 d3 d2 d1 d23 d13 d12).mulVec ![z3, z2, z1] =
      lam • ![z3, z2, z1] := by
    funext i
    fin_cases i <;>
      simp [symMat3, Matrix.mulVec, dotProduct, Fin.sum_univ_three] <;>
      linarith [he0, he1, he2]
  rcases Reduce3S_k_cases mode z1 z2 z3 with hk | hk | hk
  · obtain ⟨σ, hσ, hQy, hB01, hB02, hB00⟩ :=
      houseV_entries d1 d2 d3 d12 d13 d23 z1 z2 z3 lam hunit heig
    obtain ⟨hv1, hv2, hv3, hg⟩ := Reduce3S_body_v d1 d2 d3 d12 d13 d23 z1 z2 z3
    simp only [Reduce3S_eq1 mode d1 d2 d3 d12 d13 d23 z1 z2 z3 hk]
    rw [hv1, hv2, hv3, hg]
    rw [show qmat (houseV z1 z2 z3).2.2.2 (houseV z1 z2 z3).1
        (houseV z1 z2 z3).2.1 (houseV z1 z2 z3).2.2.1 = houseQ z1 z2 z3 from rfl]
    rw [pmat_one, Matrix.mul_one, Matrix.mul_one, Matrix.one_mulVec]
    exact ⟨Or.inl trivial, ⟨σ, hσ, hQy⟩, hB01, hB02, hB00⟩
  · obtain ⟨σ, hσ, hQy, hB01, hB02, hB00⟩ :=
      houseV_entries d2 d1 d3 d12 d23 d13 z2 z1 z3 lam hu2 hMy2
    obtain ⟨hv1, hv2, hv3, hg⟩ := Reduce3S_body_v d2 d1 d3 d12 d23 d13 z2 z1 z3
    simp only [Reduce3S_eq2 mode d1 d2 d3 d12 d13 d23 z1 z2 z3 hk]
    rw [hv1, hv2, hv3, hg]
    rw [show qmat (houseV z2 z1 z3).2.2.2 (houseV z2 z1 z3).1
        (houseV z2 z1 z3).2.1 (houseV z2 z1 z3).2.2.1 = houseQ z2 z1 z3 from rfl]
    have hBr : houseQ z2 z1 z3 * pmat 2 * symMat3 d1 d2 d3 d12 d13 d23 * pmat 2 *
        houseQ z2 z1 z3 =
        houseQ z2 z1 z3 * symMat3 d2 d1 d3 d12 d23 d13 * houseQ z2 z1 z3 := by
      rw [Matrix.mul_assoc (houseQ z2 z1 z3) (pmat 2)
          (symMat3 d1 d2 d3 d12 d13 d23),
        Matrix.mul_assoc (houseQ z2 z1 z3)
          (pmat 2 * symMat3 d1 d2 d3 d12 d13 d23) (pmat 2),
        pmat2_conj]
    rw [hBr, pmat2_vec]
    exact ⟨Or.inr (Or.inl trivial), ⟨σ, hσ, hQy⟩, hB01, hB02, hB00⟩
  · obtain ⟨σ, hσ, hQy, hB01, hB02, hB00⟩ :=
      houseV_entries d3 d2 d1 d23 d13 d12 z3 z2 z1 lam hu3 hMy3
    obtain ⟨hv1, hv2, hv3, hg⟩ := Reduce3S_body_v d3 d2 d1 d23 d13 d12 z3 z2 z1
    simp only [Reduce3S_eq3 mode d1 d2 d3 d12 d13 d23 z1 z2 z3 hk]
    rw [hv1, hv2, hv3, hg]
    rw [show qmat (houseV z3 z2 z1).2.2.2 (houseV z3 z2 z1).1
        (houseV z3 z2 z1).2.1 (houseV z3 z2 z1).2.2.1 = houseQ z3 z2 z1 from rfl]
    have hBr : houseQ z3 z2 z1 * pmat 3 * symMat3 d1 d2 d3 d12 d13 d23 * pmat 3 *
        houseQ z3 z2 z1 =
        houseQ z3 z2 z1 * symMat3 d3 d2 d1 d23 d13 d12 * houseQ z3 z2 z1 := by
      rw [Matrix.mul_assoc (houseQ z3 z2 z1) (pmat 3)
          (symMat3 d1 d2 d3 d12 d13 d23),
        Matrix.mul_assoc (houseQ z3 z2 z1)
          (pmat 3 * symMat3 d1 d2 d3 d12 d13 d23) (pmat 3),
        pmat3_conj]
    rw [hBr, pmat3_vec]
    exact ⟨Or.inr (Or.inr trivial), ⟨σ, hσ, hQy⟩, hB01, hB02, hB00⟩

/-- C5 counterexample: for the identity matrix and the unit eigenvector
`z = (-1, 0, 0)` (eigenvalue `1`), `Reduce3S` (mode 1) selects `k = 1` and
returns `v = 0`, `g = 1`, so `Q = I`, `P = I`, and `Q P z = -e1`, not `e1`:
the reflected pivot carries the sign of `z_k`. -/
theorem reduce3S_claim_false :
    ((-1 : ℝ) * -1 + 0 * 0 + 0 * 0 = 1) ∧
    (symMat3 1 1 1 0 0 0).mulVec ![(-1 : ℝ), 0, 0] =
      (1 : ℝ) • ![(-1 : ℝ), 0, 0] ∧
    ¬ (qmat (Reduce3S 1 1 1 1 0 0 0 (-1) 0 0).g
        (Reduce3S 1 1 1 1 0 0 0 (-1) 0 0).v1
        (Reduce3S 1 1 1 1 0 0 0 (-1) 0 0).v2
        (Reduce3S 1 1 1 1 0 0 0 (-1) 0 0).v3).mulVec
        ((pmat (Reduce3S 1 1 1 1 0 0 0 (-1) 0 0).k).mulVec
          ![(-1 : ℝ), 0, 0]) = ![(1 : ℝ), 0, 0] := by
  have hk : Reduce3S_k 1 (-1) 0 0 = 1 := by
    unfold Reduce3S_k
    norm_num
  have hV : houseV (-1) 0 0 = (0, 0, 0, 1) := by
    unfold houseV hypot
    norm_num
  have hb : Reduce3S_body 1 1 1 0 0 0 (-1) 0 0 =
      ⟨1, 1, 1, 0, 0, 0, 0, 1⟩ := by
    unfold Reduce3S_body hypot
    rw [hV]
    norm_num
  have hR : Reduce3S 1 1 1 1 0 0 0 (-1) 0 0 =
      ⟨1, 1, 1, 1, 0, 0, 0, -1, 0, 0, 0, 0, 0, 1⟩ := by
    rw [Reduce3S_eq1 1 1 1 1 0 0 0 (-1) 0 0 hk, hb]
  refine ⟨by norm_num, ?_, ?_⟩
  · funext i
    fin_cases i <;>
      simp [symMat3, Matrix.mulVec, dotProduct, Fin.sum_univ_three]
  · rw [hR]
    intro hcontra
    rw [show R3S.g ⟨1, 1, 1, 1, 0, 0, 0, -1, 0, 0, 0, 0, 0, 1⟩ = 1 from rfl,
      show R3S.v1 ⟨1, 1, 1, 1, 0, 0, 0, -1, 0, 0, 0, 0, 0, 1⟩ = 0 from rfl,
      show R3S.v2 ⟨1, 1, 1, 1, 0, 0, 0, -1, 0, 0, 0, 0, 0, 1⟩ = 0 from rfl,
      show R3S.v3 ⟨1, 1, 1, 1, 0, 0, 0, -1, 0, 0, 0, 0, 0, 1⟩ = 0 from rfl,
      show R3S.k ⟨1, 1, 1, 1, 0, 0, 0, -1, 0, 0, 0, 0, 0, 1⟩ = 1 from rfl,
      qmat_v0, pmat_one, Matrix.one_mulVec, Matrix.one_mulVec] at hcontra
    have h0 := congrFun hcontra 0
    norm_num at h0

theorem reduce3S_deflation_witness :
    ((1 : ℝ) * 1 + 0 * 0 + 0 * 0 = 1) ∧
    ((symMat3 1 1 1 0 0 0).mulVec ![(1 : ℝ), 0, 0] =
      (1 : ℝ) • ![(1 : ℝ), 0, 0]) ∧
    (let o := Reduce3S 1 1 1 1 0 0 0 1 0 0
     let Qm := qmat o.g o.v1 o.v2 o.v3
     let B := Qm * pmat o.k * symMat3 1 1 1 0 0 0 * pmat o.k * Qm
     (o.k = 1 ∨ o.k = 2 ∨ o.k = 3) ∧
     (∃ σ : ℝ, (σ = 1 ∨ σ = -1) ∧
       Qm.mulVec ((pmat o.k).mulVec ![(1 : ℝ), 0, 0]) = σ • ![(1 : ℝ), 0, 0]) ∧
     B 0 1 = 0 ∧ B 0 2 = 0 ∧ B 0 0 = 1) := by
  have h : (symMat3 1 1 1 0 0 0).mulVec ![(1 : ℝ), 0, 0] =
      (1 : ℝ) • ![(1 : ℝ), 0, 0] := by
    funext i
    fin_cases i <;>
      simp [symMat3, Matrix.mulVec, dotProduct, Fin.sum_univ_three]
  exact ⟨by norm_num, h, reduce3S_deflation 1 1 1 1 0 0 0 1 0 0 1 (by norm_num) h⟩

end Densemat
